import Mathlib

/-!
Verification of the odds-normalization and Kelly-staking core of the
parlay-fair-odds repository.  The Python helpers are embedded over `ℚ`
(exact arithmetic standing in for the source's float arithmetic), with
`Option` modelling the source's `None`-returning convention and `Except`
modelling an uncaught Python exception.
-/

namespace ParlayFair

/-- Python's built-in `round` on an exact value: round half to even
(banker's rounding), as used by `decimal_to_american`. -/
def pyround (q : ℚ) : ℤ :=
  let f := ⌊q⌋
  let r := q - f
  if r < 1/2 then f
  else if 1/2 < r then f + 1
  else if f % 2 = 0 then f else f + 1

/-- `american_to_decimal` from `oddsjam_parlay_app_v1.py` lines 14–22
(the guarded form, also in the four `pinnacle_parlay_app_*` variants and
`oddsjam_parlay_app_v1b.py` line 285): positive → `1 + a/100`,
negative → `1 - 100/a`, zero or `None` → `None`. -/
def american_to_decimal (a : Option ℚ) : Option ℚ :=
  match a with
  | none => none
  | some a =>
    if 0 < a then some (1 + a / 100)
    else if a < 0 then some (1 - 100 / a)
    else none

/-- `american_to_decimal` from `oddsapi_parlay_app_v1.py` lines 9–12 (the
one-line ternary form, shared by `oddsapi_parlay_app_v1a/v1c/v2.py` and
`oddsjam_parlay_app_v1b.py` line 9):
`1.0 + a/100.0 if a > 0 else 1.0 - 100.0/a`.  For `a == 0` the `else`
arm evaluates `100.0/0.0`, which raises `ZeroDivisionError` in Python;
the raise is modelled as `Except.error ()`. -/
def american_to_decimal_ternary (a : Option ℚ) : Except Unit (Option ℚ) :=
  match a with
  | none => Except.ok none
  | some a =>
    if 0 < a then Except.ok (some (1 + a / 100))
    else if a = 0 then Except.error ()
    else Except.ok (some (1 - 100 / a))

/-- `decimal_to_american` from `oddsjam_parlay_app_v1.py` lines 24–27:
`None` on falsy (`None`/`0.0`) or `d <= 1.0`; `round((d-1)*100)` for
`d >= 2.0`; `round(-100/(d-1))` for `1 < d < 2`. -/
def decimal_to_american (d : Option ℚ) : Option ℤ :=
  match d with
  | none => none
  | some x =>
    if x = 0 ∨ x ≤ 1 then none
    else if 2 ≤ x then some (pyround ((x - 1) * 100))
    else some (pyround (-100 / (x - 1)))

/-- `implied_prob_from_american` from `oddsjam_parlay_app_v1.py` lines
29–31: `(1.0/d) if d and d > 0 else None` applied to
`d = american_to_decimal(a)` (truthiness: `d` non-`None` and nonzero). -/
def implied_prob_from_american (a : Option ℚ) : Option ℚ :=
  match american_to_decimal a with
  | none => none
  | some d => if d ≠ 0 ∧ 0 < d then some (1 / d) else none

/-- `implied_prob_from_decimal` from
`pinnacle_parlay_app_v7c_mlb_ml_kelly_auto_league.py` lines 32–35:
`None` on falsy or `<= 1.0`, else `1.0 / decimal_odds`. -/
def implied_prob_from_decimal (d : Option ℚ) : Option ℚ :=
  match d with
  | none => none
  | some x =>
    if x = 0 ∨ x ≤ 1 then none
    else some (1 / x)

/-- `devig_two_way` from `oddsjam_parlay_app_v1.py` lines 33–37: the
`(None, None)` pair when an input is missing or the sum is `<= 0`,
otherwise the proportionally normalized pair. -/
def devig_two_way (p_a p_b : Option ℚ) : Option ℚ × Option ℚ :=
  match p_a, p_b with
  | some a, some b =>
    if a + b ≤ 0 then (none, none)
    else (some (a / (a + b)), some (b / (a + b)))
  | _, _ => (none, none)

/-- `kelly_fraction` from `oddsjam_parlay_app_v1.py` lines 52–57:
`None` when `p` or `dec_odds` is missing or `dec_odds <= 1.0`; else
`(b*p - q)/b` with `b = dec_odds - 1`, `q = 1 - p`. -/
def kelly_fraction (p dec_odds : Option ℚ) : Option ℚ :=
  match p, dec_odds with
  | some p, some d =>
    if d ≤ 1 then none
    else some (((d - 1) * p - (1 - p)) / (d - 1))
  | _, _ => none

/-- Numeric value of a digit string, as read by Python's `int`/`float`. -/
def digitsToNat (l : List Char) : ℕ :=
  l.foldl (fun n c => 10 * n + (c.toNat - 48)) 0

/-- Python's `s.strip()`: drop leading and trailing whitespace. -/
def pyStrip (l : List Char) : List Char :=
  ((l.dropWhile Char.isWhitespace).reverse.dropWhile Char.isWhitespace).reverse

/-- Python's `s.isdigit()`: non-empty and every character a digit. -/
def pyIsDigit (l : List Char) : Bool :=
  !l.isEmpty && l.all Char.isDigit

/-- Python's `s.startswith(('+','-'))`: the first character is a sign. -/
def startsWithSign (l : List Char) : Bool :=
  l.head? == some '+' || l.head? == some '-'

/-- Python's `float` on an unsigned literal, restricted to the
finite-literal fragment the app feeds it: digits, optionally a point and
fraction digits.  Any other shape fails (`none`, modelling `ValueError`
caught by the caller's `try`). -/
def pyFloatCore (l : List Char) : Option ℚ :=
  let ip := l.takeWhile Char.isDigit
  let rest := l.dropWhile Char.isDigit
  match rest with
  | [] => if ip.isEmpty then none else some (digitsToNat ip)
  | '.' :: fp =>
    if fp.all Char.isDigit && !(ip.isEmpty && fp.isEmpty) then
      some ((digitsToNat ip : ℚ) + (digitsToNat fp : ℚ) / 10 ^ fp.length)
    else none
  | _ => none

/-- Python's `float(s)` on the same fragment: optional sign, then an
unsigned literal. -/
def pyFloat (l : List Char) : Option ℚ :=
  match l with
  | '+' :: r => pyFloatCore r
  | '-' :: r => (pyFloatCore r).map Neg.neg
  | r => pyFloatCore r

/-- `parse_boosted_odds` from `oddsjam_parlay_app_v1.py` lines 39–50 (the
copy in `oddsapi_parlay_app_v1.py` lines 28–39 is textually identical up
to comments): strip, reject empty; strings with a leading sign or
all-digit strings of value `>= 100` go through `american_to_decimal`
(a failed `float` inside the `try` yields `None`); otherwise parse a
number, reinterpreting a bare value `>= 100` as American. -/
def parse_boosted_odds (s : String) : Option ℚ :=
  let t := pyStrip s.toList
  if t.isEmpty then none
  else if startsWithSign t || (pyIsDigit t && decide (100 ≤ digitsToNat t)) then
    (pyFloat t).bind (fun v => american_to_decimal (some v))
  else
    match pyFloat t with
    | none => none
    | some val => if 100 ≤ val then american_to_decimal (some val) else some val

/-- One selected parlay leg as the evaluation loop of
`pinnacle_parlay_app_v7c_mlb_ml_kelly_auto_league.py` (lines 362–384)
sees it: the chosen side (`true` = home) and the moneyline prices
returned by `get_ml_prices_any_source` — `none` when the prices dict is
falsy (`if not prices`), otherwise the optional home and away American
prices (`prices.get("home")`, `prices.get("away")`). -/
def Leg : Type := Bool × Option (Option ℚ × Option ℚ)

/-- The fair probability the loop computes for one priced leg:
devig the two implied probabilities and select the requested side. -/
def evalLeg (side : Bool) (prices : Option ℚ × Option ℚ) : Option ℚ :=
  let fp := devig_two_way (implied_prob_from_american prices.1)
    (implied_prob_from_american prices.2)
  if side then fp.1 else fp.2

/-- `fair_decimal=(1.0/fair) if fair else None` from the loop body. -/
def fairDecimal (fair : Option ℚ) : Option ℚ :=
  match fair with
  | none => none
  | some f => if f = 0 then none else some (1 / f)

/-- The fair probability of a leg, `none` when the leg is skipped
(`if not prices: continue`) or its devig produced no value. -/
def legFair (l : Leg) : Option ℚ :=
  match l.2 with
  | none => none
  | some prices => evalLeg l.1 prices

/-- One iteration of the v7c parlay loop over the running state
`(results, fair_prob_parlay, fair_dec_parlay)`.  A leg with a falsy
prices dict is skipped (`continue`); for a priced leg the statements
`fair_prob_parlay *= res["fair_prob"]` and
`fair_dec_parlay *= res["fair_decimal"]` raise `TypeError` when the
factor is `None`, modelled as `Except.error ()`. -/
def parlayStep (st : List ℚ × ℚ × ℚ) (l : Leg) :
    Except Unit (List ℚ × ℚ × ℚ) :=
  match l.2 with
  | none => Except.ok st
  | some prices =>
    let fair := evalLeg l.1 prices
    match fair, fairDecimal fair with
    | some f, some fd => Except.ok (st.1 ++ [f], st.2.1 * f, st.2.2 * fd)
    | _, _ => Except.error ()

/-- The whole evaluation (lines 362–388): fold the loop from
`results=[], fair_prob_parlay=1.0, fair_dec_parlay=1.0`; afterwards
`if not results: st.error(...); st.stop()` yields no parlay
(`Except.ok none`); otherwise the final state is the parlay result. -/
def parlayEval (legs : List Leg) :
    Except Unit (Option (List ℚ × ℚ × ℚ)) := do
  let st ← legs.foldlM parlayStep ([], 1, 1)
  if st.1.isEmpty then return none else return some st

/-! ## General lemmas -/

theorem pyround_intCast (a : ℤ) : pyround (a : ℚ) = a := by
  simp [pyround]

/-! ## Claims -/

/-- C1, counterexample: at the boundary value `a = -100` the round-trip
through decimal odds does not reproduce `a`: American `-100` converts to
decimal `2.0`, which converts back to `+100`. -/
theorem c1_roundtrip_counterexample :
    decimal_to_american (american_to_decimal (some (-100 : ℚ))) = some 100 ∧
      (100 : ℤ) ≠ -100 := by
  refine ⟨?_, by decide⟩
  norm_num [decimal_to_american, american_to_decimal, pyround]

/-- C1 (amended): for every American price `a` with `a ≥ 100` or
`a < -100`, `decimal_to_american (american_to_decimal a)` returns `a`
exactly; at `a = -100` (decimal `2.0`, even money) it returns the
equivalent representation `+100` instead. -/
theorem c1_roundtrip_amended (a : ℤ) (h : 100 ≤ a ∨ a < -100) :
    decimal_to_american (american_to_decimal (some (a : ℚ))) = some a := by
  rcases h with h100 | hneg
  · have ha : (0 : ℚ) < (a : ℚ) := by exact_mod_cast lt_of_lt_of_le (by norm_num) h100
    have haq : (100 : ℚ) ≤ (a : ℚ) := by exact_mod_cast h100
    have hd2 : (2 : ℚ) ≤ 1 + (a : ℚ) / 100 := by linarith
    have hd1 : ¬((1 + (a : ℚ) / 100) = 0 ∨ (1 + (a : ℚ) / 100) ≤ 1) := by
      push_neg
      constructor <;> [linarith; linarith]
    simp only [american_to_decimal, if_pos ha, decimal_to_american, if_neg hd1,
      if_pos hd2]
    have hmul : (1 + (a : ℚ) / 100 - 1) * 100 = (a : ℚ) := by
      field_simp
    rw [hmul, pyround_intCast]
  · have ha : (a : ℚ) < 0 := by exact_mod_cast lt_trans hneg (by norm_num)
    have haq : (a : ℚ) < -100 := by exact_mod_cast hneg
    have hnpos : ¬(0 < (a : ℚ)) := not_lt.mpr ha.le
    have hfrac0 : (100 : ℚ) / (a : ℚ) < 0 := div_neg_of_pos_of_neg (by norm_num) ha
    have hfrac1 : -1 < (100 : ℚ) / (a : ℚ) := by
      rw [neg_lt, ← div_neg]
      rw [div_lt_one (by linarith : (0 : ℚ) < -(a : ℚ))]
      linarith
    have hd1 : ¬((1 - 100 / (a : ℚ)) = 0 ∨ (1 - 100 / (a : ℚ)) ≤ 1) := by
      push_neg
      constructor <;> [linarith; linarith]
    have hd2 : ¬((2 : ℚ) ≤ 1 - 100 / (a : ℚ)) := by
      push_neg
      linarith
    simp only [american_to_decimal, if_neg hnpos, if_pos ha, decimal_to_american,
      if_neg hd1, if_neg hd2]
    have hane : (a : ℚ) ≠ 0 := ne_of_lt ha
    have hmul : -100 / (1 - 100 / (a : ℚ) - 1) = (a : ℚ) := by
      rw [show (1 : ℚ) - 100 / (a : ℚ) - 1 = -(100 / (a : ℚ)) by ring, div_neg,
        neg_div, neg_neg]
      field_simp
    rw [hmul, pyround_intCast]

/-- Witness for C1 (amended) at `a = 100` and `a = -101`. -/
theorem c1_roundtrip_amended_witness :
    decimal_to_american (american_to_decimal (some ((100 : ℤ) : ℚ))) = some 100 ∧
      decimal_to_american (american_to_decimal (some ((-101 : ℤ) : ℚ))) = some (-101) :=
  ⟨c1_roundtrip_amended 100 (by norm_num), c1_roundtrip_amended (-101) (by norm_num)⟩

/-- C2: the guarded copy of `american_to_decimal`
(`oddsjam_parlay_app_v1.py`) returns the documented values and signals
"no value" at `0`, but the ternary copy (`oddsapi_parlay_app_v1.py`
line 12) evaluates `1.0 - 100.0/a` at `a = 0` and raises
`ZeroDivisionError` instead of returning `None`: evaluated here at the
failing input `0` and at sample nonzero inputs `150` and `-150`. -/
theorem c2_zero_input :
    american_to_decimal_ternary (some 0) = Except.error () ∧
      american_to_decimal (some 0) = none ∧
      american_to_decimal (some 150) = some (1 + 150 / 100) ∧
      american_to_decimal_ternary (some 150) = Except.ok (some (1 + 150 / 100)) ∧
      american_to_decimal (some (-150)) = some (1 - 100 / (-150)) ∧
      american_to_decimal_ternary (some (-150)) = Except.ok (some (1 - 100 / (-150))) := by
  norm_num [american_to_decimal, american_to_decimal_ternary]

/-- C4: `devig_two_way` returns the proportionally normalized pair
exactly when both inputs are present and their sum is positive, and the
"no value" pair `(none, none)` exactly when an input is missing or the
sum is non-positive (and, being a total function, it never throws). -/
theorem c4_devig_spec (p_a p_b : Option ℚ) :
    (∀ a b : ℚ, p_a = some a → p_b = some b →
      ((0 < a + b →
          devig_two_way p_a p_b = (some (a / (a + b)), some (b / (a + b)))) ∧
        (a + b ≤ 0 → devig_two_way p_a p_b = (none, none)))) ∧
      ((p_a = none ∨ p_b = none) → devig_two_way p_a p_b = (none, none)) := by
  constructor
  · rintro a b rfl rfl
    constructor
    · intro hpos
      simp [devig_two_way, not_le.mpr hpos]
    · intro hneg
      simp [devig_two_way, hneg]
  · rintro (rfl | rfl)
    · simp [devig_two_way]
    · cases p_a <;> simp [devig_two_way]

/-- Witness for C4 at `p_a = 3/5`, `p_b = 3/10` (sum `9/10 > 0`) and at
a missing second input. -/
theorem c4_devig_spec_witness :
    devig_two_way (some (3/5)) (some (3/10)) = (some (2/3), some (1/3)) ∧
      devig_two_way (some (3/5)) none = (none, none) := by
  constructor
  · have h := ((c4_devig_spec (some (3/5)) (some (3/10))).1 (3/5) (3/10) rfl rfl).1
      (by norm_num)
    rw [h]
    norm_num
  · exact (c4_devig_spec (some (3/5)) none).2 (Or.inr rfl)

/-- C5: for `dec_odds > 1`, `kelly_fraction` returns
`(b·p − q)/b` with `b = dec_odds − 1`, `q = 1 − p`; it returns `0` when
the offered odds imply exactly the fair probability
(`dec_odds · p = 1`, i.e. `dec_odds = 1/p`), and a negative value when
the offered odds are worse than fair (`dec_odds · p < 1`). -/
theorem c5_kelly_spec (p d : ℚ) (hd : 1 < d) :
    kelly_fraction (some p) (some d) = some (((d - 1) * p - (1 - p)) / (d - 1)) ∧
      (d * p = 1 → kelly_fraction (some p) (some d) = some 0) ∧
      (d * p < 1 → ∃ v, kelly_fraction (some p) (some d) = some v ∧ v < 0) := by
  have hne : ¬(d ≤ 1) := not_le.mpr hd
  have hb : (0 : ℚ) < d - 1 := by linarith
  refine ⟨by simp [kelly_fraction, hne], ?_, ?_⟩
  · intro hfair
    simp only [kelly_fraction, if_neg hne, Option.some.injEq]
    have : (d - 1) * p - (1 - p) = 0 := by nlinarith
    rw [this, zero_div]
  · intro hworse
    refine ⟨((d - 1) * p - (1 - p)) / (d - 1), by simp [kelly_fraction, hne], ?_⟩
    apply div_neg_of_neg_of_pos _ hb
    nlinarith

/-- Witness for C5 at `p = 1/2`, `dec_odds = 2` (no edge) and
`p = 1/2`, `dec_odds = 3/2` (worse than fair). -/
theorem c5_kelly_spec_witness :
    kelly_fraction (some (1/2)) (some 2) = some 0 ∧
      ∃ v, kelly_fraction (some (1/2)) (some (3/2)) = some v ∧ v < 0 :=
  ⟨(c5_kelly_spec (1/2) 2 (by norm_num)).2.1 (by norm_num),
    (c5_kelly_spec (1/2) (3/2) (by norm_num)).2.2 (by norm_num)⟩

/-- C7: every consumer of a decimal odds input — `decimal_to_american`,
`kelly_fraction`, `implied_prob_from_decimal` — returns "no value" when
the input is absent or `≤ 1.0`, and no division is reached. -/
theorem c7_decimal_boundary (d : Option ℚ) (h : ∀ x, d = some x → x ≤ 1) :
    decimal_to_american d = none ∧ implied_prob_from_decimal d = none ∧
      ∀ p, kelly_fraction p d = none := by
  cases d with
  | none =>
    refine ⟨rfl, rfl, ?_⟩
    intro p
    cases p <;> rfl
  | some x =>
    have hx : x ≤ 1 := h x rfl
    refine ⟨?_, ?_, ?_⟩
    · simp [decimal_to_american, hx]
    · simp [implied_prob_from_decimal, hx]
    · intro p
      cases p <;> simp [kelly_fraction, hx]

/-- Witness for C7 at `d = 1.0` (and Kelly probability `1/2`). -/
theorem c7_decimal_boundary_witness :
    decimal_to_american (some 1) = none ∧
      implied_prob_from_decimal (some 1) = none ∧
      kelly_fraction (some (1/2)) (some 1) = none := by
  have h := c7_decimal_boundary (some 1)
    (fun x hx => le_of_eq (Option.some.inj hx).symm)
  exact ⟨h.1, h.2.1, h.2.2 (some (1/2))⟩

/-- C8, counterexample (negation of the claim): there are no
`p ∈ (0, 1]` and `dec_odds > 1` for which `kelly_fraction` exceeds `1` —
on that domain `f* = p − (1−p)/b ≤ p ≤ 1`. -/
theorem c8_counterexample :
    ¬ ∃ p d v : ℚ, 0 < p ∧ p ≤ 1 ∧ 1 < d ∧
      kelly_fraction (some p) (some d) = some v ∧ 1 < v := by
  rintro ⟨p, d, v, hp, hp1, hd, hkv, hv⟩
  have hne : ¬(d ≤ 1) := not_le.mpr hd
  simp only [kelly_fraction, if_neg hne, Option.some.injEq] at hkv
  have hb : (0 : ℚ) < d - 1 := by linarith
  have hle : v ≤ 1 := by
    rw [← hkv, div_le_one hb]
    nlinarith
  linarith

/-- C8 (amended): on valid inputs with `p ∈ (0, 1]` the full Kelly
fraction never exceeds `1`; values above `1` do occur, but only for a
"probability" input above `1` (e.g. `p = 2`, `dec_odds = 2` gives `3`). -/
theorem c8_kelly_bounded :
    (∀ p d v : ℚ, 0 < p → p ≤ 1 → 1 < d →
      kelly_fraction (some p) (some d) = some v → v ≤ 1) ∧
      (∃ p d v : ℚ, 1 < p ∧ 1 < d ∧
        kelly_fraction (some p) (some d) = some v ∧ 1 < v) := by
  constructor
  · intro p d v hp hp1 hd hkv
    have hne : ¬(d ≤ 1) := not_le.mpr hd
    simp only [kelly_fraction, if_neg hne, Option.some.injEq] at hkv
    have hb : (0 : ℚ) < d - 1 := by linarith
    rw [← hkv, div_le_one hb]
    nlinarith
  · refine ⟨2, 2, 3, by norm_num, by norm_num, ?_, by norm_num⟩
    norm_num [kelly_fraction]

/-- Witness for C8 (amended) at `p = 1`, `dec_odds = 2` (full Kelly
exactly `1`). -/
theorem c8_kelly_bounded_witness : (1 : ℚ) ≤ 1 :=
  c8_kelly_bounded.1 1 2 1 (by norm_num) le_rfl (by norm_num)
    (by norm_num [kelly_fraction])

/-- C10: for every nonzero American input — including magnitudes below
100, which `american_to_decimal` accepts — the decimal value returned is
strictly greater than `1`, so `implied_prob_from_american` returns its
reciprocal, which lies strictly between `0` and `1`. -/
theorem c10_decimal_gt_one (a : ℚ) (ha : a ≠ 0) :
    ∃ d : ℚ, american_to_decimal (some a) = some d ∧ 1 < d ∧
      implied_prob_from_american (some a) = some (1 / d) ∧
      0 < 1 / d ∧ 1 / d < 1 := by
  have key : ∃ d, american_to_decimal (some a) = some d ∧ 1 < d := by
    rcases lt_or_gt_of_ne ha with hneg | hpos
    · refine ⟨1 - 100 / a, by simp [american_to_decimal, hneg, not_lt.mpr hneg.le], ?_⟩
      have : (100 : ℚ) / a < 0 := div_neg_of_pos_of_neg (by norm_num) hneg
      linarith
    · refine ⟨1 + a / 100, by simp [american_to_decimal, hpos], ?_⟩
      have : (0 : ℚ) < a / 100 := by positivity
      linarith
  obtain ⟨d, hd, hd1⟩ := key
  have hd0 : (0 : ℚ) < d := lt_trans one_pos hd1
  refine ⟨d, hd, hd1, ?_, by positivity, ?_⟩
  · simp [implied_prob_from_american, hd, ne_of_gt hd0, hd0]
  · rw [div_lt_one hd0]
    exact hd1

/-- Witness for C10 at the sub-100 magnitude `a = 50`
(decimal `3/2`, implied probability `2/3`). -/
theorem c10_decimal_gt_one_witness :
    ∃ d : ℚ, american_to_decimal (some 50) = some d ∧ 1 < d ∧
      implied_prob_from_american (some 50) = some (1 / d) ∧
      0 < 1 / d ∧ 1 / d < 1 :=
  c10_decimal_gt_one 50 (by norm_num)

/-- Folding the v7c loop over legs whose fair probabilities are
`ps` (all present and nonzero) appends `ps` to the results and
multiplies the two accumulators by `Π ps` and `Π (1/p)`. -/
theorem foldlM_parlayStep (legs : List Leg) (ps : List ℚ)
    (h : legs.map legFair = ps.map some) (h0 : ∀ p ∈ ps, p ≠ 0)
    (acc : List ℚ × ℚ × ℚ) :
    legs.foldlM parlayStep acc =
      Except.ok (acc.1 ++ ps, acc.2.1 * ps.prod,
        acc.2.2 * (ps.map fun p => 1 / p).prod) := by
  induction legs generalizing ps acc with
  | nil =>
    cases ps with
    | nil => simp [List.foldlM, pure, Except.pure]
    | cons p qs => simp at h
  | cons l ls ih =>
    cases ps with
    | nil => simp at h
    | cons p qs =>
      simp only [List.map_cons, List.cons.injEq] at h
      obtain ⟨h1, h2⟩ := h
      have hp0 : p ≠ 0 := h0 p (List.mem_cons_self p qs)
      have hstep : parlayStep acc l =
          Except.ok (acc.1 ++ [p], acc.2.1 * p, acc.2.2 * (1 / p)) := by
        unfold legFair at h1
        match hl : l.2 with
        | none => rw [hl] at h1; simp at h1
        | some prices =>
          rw [hl] at h1
          have h1f : evalLeg l.1 prices = some p := h1
          simp [parlayStep, hl, h1f, fairDecimal, hp0]
      rw [List.foldlM_cons, hstep]
      show ls.foldlM parlayStep _ = _
      rw [ih qs h2 (fun q hq => h0 q (List.mem_cons_of_mem p hq))]
      simp [mul_assoc]

/-- C6: for a non-empty list of legs whose fair probabilities are
`p_1 … p_n` (all usable), the loop produces
`fair_prob_parlay = Π p_i` and `fair_dec_parlay = Π (1/p_i)`;
a single-leg parlay degenerates to `(p_1, 1/p_1)`. -/
theorem c6_parlay_multiplicative (legs : List Leg) (ps : List ℚ)
    (h : legs.map legFair = ps.map some) (h0 : ∀ p ∈ ps, p ≠ 0)
    (hne : legs ≠ []) :
    parlayEval legs =
      Except.ok (some (ps, ps.prod, (ps.map fun p => 1 / p).prod)) := by
  have hps : ps ≠ [] := by
    intro hnil
    subst hnil
    simp only [List.map_nil, List.map_eq_nil_iff] at h
    exact hne h
  unfold parlayEval
  rw [foldlM_parlayStep legs ps h h0 ([], 1, 1)]
  simp [Bind.bind, Except.bind, pure, Except.pure, hps]

/-- Witness for C6: the single-leg parlay on a `-110 / -110` market
degenerates to that leg's fair probability `1/2` and fair decimal `2`. -/
theorem c6_parlay_multiplicative_witness :
    parlayEval [(true, some (some (-110), some (-110)))] =
      Except.ok (some ([1/2], 1/2, 2)) := by
  have h := c6_parlay_multiplicative [(true, some (some (-110), some (-110)))]
    [1/2] ?_ (by norm_num) (by simp)
  · rw [h]
    norm_num
  · simp only [List.map_cons, List.map_nil, List.cons.injEq, and_true]
    norm_num [legFair, evalLeg, implied_prob_from_american, american_to_decimal,
      devig_two_way]

/-- C3, counterexample: a parlay whose first selected leg is unusable
(no prices located) does produce a result — the unusable leg is
silently skipped (`continue`) and the partial parlay over the one
remaining usable leg (fair probability `1/2`) is returned. -/
theorem c3_counterexample :
    legFair (true, none) = none ∧
      parlayEval [(true, none), (true, some (some (-110), some (-110)))] =
        Except.ok (some ([1/2], 1/2, 2)) := by
  refine ⟨rfl, ?_⟩
  norm_num [parlayEval, parlayStep, evalLeg, fairDecimal,
    implied_prob_from_american, american_to_decimal, devig_two_way,
    Bind.bind, Except.bind, Pure.pure, Except.pure]

/-- C3 (amended): a selected leg with no located prices is silently
skipped and the parlay is evaluated over the remaining legs; the
evaluation yields no result only when every leg was skipped; and a leg
whose prices are present but whose conversion/devig yields no fair
probability aborts the whole evaluation with an uncaught error. -/
theorem c3_skip_policy :
    (∀ (side : Bool) (rest : List Leg),
      parlayEval ((side, none) :: rest) = parlayEval rest) ∧
      (∀ legs : List Leg, (∀ l ∈ legs, l.2 = none) →
        parlayEval legs = Except.ok none) ∧
      (∀ (side : Bool) (pr : Option ℚ × Option ℚ) (rest : List Leg),
        evalLeg side pr = none →
        parlayEval ((side, some pr) :: rest) = Except.error ()) := by
  have hskip : ∀ (side : Bool) (rest : List Leg),
      parlayEval ((side, none) :: rest) = parlayEval rest := by
    intro side rest
    unfold parlayEval
    rw [List.foldlM_cons]
    rfl
  refine ⟨hskip, ?_, ?_⟩
  · intro legs hall
    induction legs with
    | nil => rfl
    | cons l ls ih =>
      obtain ⟨side, l2⟩ := l
      have h2 : l2 = none := hall (side, l2) (List.mem_cons_self _ _)
      subst h2
      rw [hskip]
      exact ih fun l hl => hall l (List.mem_cons_of_mem _ hl)
  · intro side pr rest hfair
    unfold parlayEval
    rw [List.foldlM_cons]
    have hstep : parlayStep ([], 1, 1) (side, some pr) = Except.error () := by
      simp [parlayStep, hfair]
    rw [hstep]
    rfl

/-- Witness for C3 (amended): a parlay whose only leg has no prices
yields no result. -/
theorem c3_skip_policy_witness :
    parlayEval [((true : Bool), (none : Option (Option ℚ × Option ℚ)))] =
      Except.ok none :=
  c3_skip_policy.2.1 [(true, none)] (by intro l hl; simp at hl; rw [hl])

/-- C9: for a non-empty (after stripping) offered-odds string,
`parse_boosted_odds` converts through `american_to_decimal` when the
string has a leading sign, is an all-digit string of value `≥ 100`, or
parses as an unsigned number `≥ 100`; otherwise it returns the parsed
number as decimal odds; and it returns "no value" when parsing fails. -/
theorem c9_parse_spec (s : String) (hne : pyStrip s.toList ≠ []) :
    ((startsWithSign (pyStrip s.toList) = true ∨
        (pyIsDigit (pyStrip s.toList) = true ∧
          100 ≤ digitsToNat (pyStrip s.toList)) ∨
        (startsWithSign (pyStrip s.toList) = false ∧
          ∃ v, pyFloat (pyStrip s.toList) = some v ∧ 100 ≤ v)) →
      parse_boosted_odds s =
        (pyFloat (pyStrip s.toList)).bind fun v => american_to_decimal (some v)) ∧
      (∀ v : ℚ, startsWithSign (pyStrip s.toList) = false →
        ¬(pyIsDigit (pyStrip s.toList) = true ∧
          100 ≤ digitsToNat (pyStrip s.toList)) →
        pyFloat (pyStrip s.toList) = some v → v < 100 →
        parse_boosted_odds s = some v) ∧
      (startsWithSign (pyStrip s.toList) = false →
        ¬(pyIsDigit (pyStrip s.toList) = true ∧
          100 ≤ digitsToNat (pyStrip s.toList)) →
        pyFloat (pyStrip s.toList) = none →
        parse_boosted_odds s = none) := by
  have hemp : (pyStrip s.toList).isEmpty = false := by
    simpa [List.isEmpty_iff] using hne
  by_cases hcond : (startsWithSign (pyStrip s.toList)
      || (pyIsDigit (pyStrip s.toList)
        && decide (100 ≤ digitsToNat (pyStrip s.toList)))) = true
  · refine ⟨fun _ => ?_, fun v hsign hdig _ _ => ?_, fun hsign hdig _ => ?_⟩
    · simp only [parse_boosted_odds, hemp, Bool.false_eq_true, if_false, hcond,
        if_true]
    · exfalso
      simp only [hsign, Bool.false_or, Bool.and_eq_true, decide_eq_true_eq] at hcond
      exact hdig hcond
    · exfalso
      simp only [hsign, Bool.false_or, Bool.and_eq_true, decide_eq_true_eq] at hcond
      exact hdig hcond
  · have hcond' := hcond
    simp only [Bool.or_eq_true, Bool.and_eq_true, decide_eq_true_eq, not_or,
      Bool.not_eq_true, not_and] at hcond'
    obtain ⟨hsign, hdig⟩ := hcond'
    refine ⟨fun hcase => ?_, fun v _ _ hfloat hlt => ?_, fun _ _ hfloat => ?_⟩
    · rcases hcase with hc | hc | hc
      · rw [hsign] at hc
        exact absurd hc (by simp)
      · exact absurd (hdig hc.1) (by simpa using hc.2)
      · obtain ⟨_, v, hfloat, hge⟩ := hc
        simp only [parse_boosted_odds, hemp, Bool.false_eq_true, if_false,
          hcond, hfloat, Option.some_bind]
        rw [if_pos hge]
    · simp only [parse_boosted_odds, hemp, Bool.false_eq_true, if_false,
        hcond, hfloat]
      rw [if_neg (not_le.mpr hlt)]
    · simp only [parse_boosted_odds, hemp, Bool.false_eq_true, if_false,
        hcond, hfloat]

/-- Witness for C9: `"+450"` takes the American branch
(decimal `5.5`), `"2.5"` parses as decimal odds, `"xyz"` fails. -/
theorem c9_parse_spec_witness :
    parse_boosted_odds "+450" = some (11/2) ∧
      parse_boosted_odds "2.5" = some (5/2) ∧
      parse_boosted_odds "xyz" = none := by
  refine ⟨?_, ?_, ?_⟩
  · have h := (c9_parse_spec "+450" (by decide)).1 (Or.inl (by decide))
    rw [h, show pyFloat (pyStrip "+450".toList) = some 450 from rfl]
    norm_num [american_to_decimal]
  · have h := (c9_parse_spec "2.5" (by decide)).2.1 ((2 : ℚ) + 5 / 10 ^ 1)
      (by decide) (by decide) rfl (by norm_num)
    rw [h]
    norm_num
  · exact (c9_parse_spec "xyz" (by decide)).2.2 (by decide) (by decide) rfl

end ParlayFair
